import Mathlib

/-!
Shallow embedding of the completeness-checking and backfill-orchestration
subsystem of the repository (files `instock/web/dataDownloadHandler.py`,
`instock/lib/clickhouse_client.py`, `instock/job/basic_data_after_close_daily_job.py`),
together with theorems settling the frozen claims about it.

Dates are modelled as natural numbers (the code only compares dates and
formats them); markets and stock codes are modelled as strings or
character lists exactly as the code manipulates them.
-/

namespace Stock

/-! ### Market routing (`DataDownloadApiHandler._get_market_from_code`) -/

/-- The three exchanges the handler ever produces. -/
inductive Market where
  | SH
  | SZ
  | BJ
deriving DecidableEq, Repr

/-- Embedding of `_get_market_from_code` (dataDownloadHandler.py lines 399-408):
`startswith` dispatch on the first character of the code, with SZ as the
default branch.  An empty string starts with nothing, so it lands in the
default branch, as in Python. -/
def getMarketFromCode (code : List Char) : Market :=
  match code with
  | [] => Market.SZ
  | c :: _ =>
    if c = '6' then Market.SH
    else if c = '0' ∨ c = '3' then Market.SZ
    else if c = '8' ∨ c = '4' then Market.BJ
    else Market.SZ

/-- Embedding of `_validate_stock_code` (lines 395-397): six characters, all digits. -/
def isValidStockCode (code : List Char) : Bool :=
  code.length = 6 && code.all (fun c => c.isDigit)

/-! ### Single-instrument completeness check (`_check_data_completeness`) -/

/-- Outcome of the store interaction inside `_check_data_completeness`
(lines 493-536): the existing-dates query succeeds and returns the stored
dates, or the `db_engine` module is not loaded (line 529), or the query
raises (line 533), or `create_clickhouse_client()` returns a falsy client —
the `if client:` guard at line 496 has no `else`, a connection-failure mode
every sibling call site (lines 736, 983, 1323) treats as cannot-connect. -/
inductive StoreQuery where
  | ok (dates : List Nat)
  | moduleMissing
  | queryError
  | clientNone
deriving DecidableEq, Repr

/-- The flat record `_check_data_completeness` returns.  `missingAll` is the
full internal `missing_dates` list whose length the code reports as
`missing_count`; `missingSample` is the truncated `missing_dates[:10]`
actually serialized. -/
structure CheckReport where
  success : Bool
  totalExpected : Nat
  existingCount : Nat
  missingCount : Nat
  completeness : Rat
  missingAll : List Nat
  missingSample : List Nat
  hasMissing : Bool
  notListed : Bool
deriving DecidableEq, Repr

/-- The `expected_dates` list of `_check_data_completeness` (lines 484-487):
the calendar filtered to `[actualStart, endD]`. -/
def expectedIn (cal : List Nat) (actualStart endD : Nat) : List Nat :=
  cal.filter (fun d => decide (actualStart ≤ d ∧ d ≤ endD))

/-- The `missing_dates` list (lines 490-536): the expected dates without a
stored row when the query succeeds, the whole expected list when the
module is unloaded or the query raises, and the `[]` it was initialized to
at line 490 when the client is falsy — the `if client:` block is simply
skipped and nothing updates `missing_dates`. -/
def missingOf (expected : List Nat) (store : StoreQuery) : List Nat :=
  match store with
  | StoreQuery.ok ex => expected.filter (fun d => decide (d ∉ ex))
  | StoreQuery.moduleMissing => expected
  | StoreQuery.queryError => expected
  | StoreQuery.clientNone => []

/-- The `existing_count` value (lines 491, 522): the number of rows the
query returned, left at 0 on the failure paths. -/
def existingCountOf (store : StoreQuery) : Nat :=
  match store with
  | StoreQuery.ok ex => ex.length
  | StoreQuery.moduleMissing => 0
  | StoreQuery.queryError => 0
  | StoreQuery.clientNone => 0

/-- The percentage formula of line 540, with 0 as the empty-denominator
fallback. -/
def pctOf (total mc : Nat) : Rat :=
  if 0 < total then ((total : Rat) - (mc : Rat)) / (total : Rat) * 100 else 0

/-- The body of `_check_data_completeness` after the effective start date is
fixed (lines 483-554): filter the calendar to `[actualStart, endD]`, diff
against the stored dates (all expected dates count as missing when the store
is unreachable), and compute the percentage. -/
def checkOneBody (cal : List Nat) (actualStart endD : Nat) (store : StoreQuery) :
    CheckReport :=
  { success := true
    totalExpected := (expectedIn cal actualStart endD).length
    existingCount := existingCountOf store
    missingCount := (missingOf (expectedIn cal actualStart endD) store).length
    completeness := pctOf (expectedIn cal actualStart endD).length
      (missingOf (expectedIn cal actualStart endD) store).length
    missingAll := missingOf (expectedIn cal actualStart endD) store
    missingSample := (missingOf (expectedIn cal actualStart endD) store).take 10
    hasMissing := decide (0 < (missingOf (expectedIn cal actualStart endD) store).length)
    notListed := false }

/-- Embedding of `_check_data_completeness` (lines 410-569).  `cal = none`
models the trading-calendar source being unavailable (line 422 raises, the
outer `except` returns a failure record).  `ipo` models the listing date
obtained from the instrument registry (`none` when unavailable, line 478).
When the listing date pushes the effective start past the end date the
early fully-complete report of lines 461-477 is returned. -/
def checkOne (cal : Option (List Nat)) (startD endD : Nat) (ipo : Option Nat)
    (store : StoreQuery) : CheckReport :=
  match cal with
  | none =>
    { success := false, totalExpected := 0, existingCount := 0, missingCount := 0
      completeness := 0, missingAll := [], missingSample := []
      hasMissing := false, notListed := false }
  | some cal =>
    match ipo with
    | some ip =>
      let actualStart := max startD ip
      if endD < actualStart then
        { success := true, totalExpected := 0, existingCount := 0, missingCount := 0
          completeness := 100, missingAll := [], missingSample := []
          hasMissing := false, notListed := true }
      else checkOneBody cal actualStart endD store
    | none => checkOneBody cal startD endD store

/-- The expected-date set `checkOne` works from, spelled out for the
specification theorems: the calendar filtered to `[max(start, listing), end]`,
empty when the instrument lists after the end of the range. -/
def checkExpected (cal : List Nat) (startD endD : Nat) (ipo : Option Nat) : List Nat :=
  match ipo with
  | some ip =>
    if endD < max startD ip then []
    else expectedIn cal (max startD ip) endD
  | none => expectedIn cal startD endD

/-- On both store-failure paths the whole expected list is reported missing. -/
theorem missingOf_fail (expected : List Nat) (store : StoreQuery)
    (h : store = StoreQuery.moduleMissing ∨ store = StoreQuery.queryError) :
    missingOf expected store = expected := by
  rcases h with rfl | rfl <;> rfl

/-- The percentage formula degenerates to 0 on an empty expected set. -/
theorem pctOf_zero_total (mc : Nat) : pctOf 0 mc = 0 := by
  simp [pctOf]

/-! ### Batch completeness check (`_check_batch_data_completeness`) -/

/-- One entry of the stock list fed to the batch check: code, market string,
optional listing date, and the row count the single aggregate `GROUP BY`
query returned for it (`stock_data_count.get(stock_key, 0)`, line 688 —
0 when the key is absent). -/
structure BatchStockInput where
  code : String
  market : String
  ipo : Option Nat
  existing : Nat
deriving DecidableEq, Repr

/-- Per-instrument statistics the batch check computes (lines 668-709).
`missing` is a Python `int` subtraction, hence an integer here. -/
structure StockStat where
  code : String
  market : String
  expected : Nat
  existing : Nat
  missing : Int
  pct : Rat
deriving DecidableEq, Repr

/-- Second half of the per-stock computation of the batch check (lines
688-691): `missing_count = stock_expected_days - existing_count` and the
percentage, 0 when no day is expected. -/
def mkStockStat (inp : BatchStockInput) (expectedDays : Nat) : StockStat :=
  let missing : Int := (expectedDays : Int) - (inp.existing : Int)
  let pct : Rat :=
    if 0 < expectedDays then
      ((expectedDays : Rat) - (missing : Rat)) / (expectedDays : Rat) * 100
    else 0
  { code := inp.code, market := inp.market, expected := expectedDays
    existing := inp.existing, missing := missing, pct := pct }

/-- Per-stock expected-day computation of the batch check (lines 668-691):
with a listing date the calendar slice `expected_dates` is refiltered to
dates at or after `max(start, ipo)` and the stock is skipped (`none`) when
that effective start lies beyond the end date; without a listing date the
whole slice counts. -/
def batchStockStat (cal : List Nat) (startD endD : Nat) (inp : BatchStockInput) :
    Option StockStat :=
  let expectedDates := cal.filter (fun d => decide (startD ≤ d ∧ d ≤ endD))
  match inp.ipo with
  | some ip =>
    let stockStart := max startD ip
    if stockStart ≤ endD then
      some (mkStockStat inp (expectedDates.filter (fun d => decide (stockStart ≤ d))).length)
    else none
  | none => some (mkStockStat inp expectedDates.length)

/-- All in-scope per-stock statistics of one batch check (skipped stocks
removed, in list order). -/
def batchStats (cal : List Nat) (startD endD : Nat) (inputs : List BatchStockInput) :
    List StockStat :=
  inputs.filterMap (batchStockStat cal startD endD)

/-- The three completeness bands of the batch summary. -/
inductive Band where
  | complete
  | someMissing
  | severeMissing
deriving DecidableEq, Repr

/-- The `if completeness >= 99 / elif >= 50 / else` classification of lines
694-699, applied to the unrounded percentage as in the code. -/
def classifyBand (pct : Rat) : Band :=
  if 99 ≤ pct then Band.complete
  else if 50 ≤ pct then Band.someMissing
  else Band.severeMissing

/-- The aggregate band counters of the batch summary (lines 610-615). -/
structure BatchSummary where
  completeStocks : Nat
  midMissing : Nat
  severeMissing : Nat
deriving DecidableEq, Repr

/-- One loop step of the summary tally. -/
def bumpBand (acc : BatchSummary) (b : Band) : BatchSummary :=
  match b with
  | Band.complete => { acc with completeStocks := acc.completeStocks + 1 }
  | Band.someMissing => { acc with midMissing := acc.midMissing + 1 }
  | Band.severeMissing => { acc with severeMissing := acc.severeMissing + 1 }

/-- The summary tally over the in-scope stocks, mirroring the accumulation
loop of lines 661-729. -/
def summarize (stats : List StockStat) : BatchSummary :=
  stats.foldl (fun acc st => bumpBand acc (classifyBand st.pct)) ⟨0, 0, 0⟩

/-- Ordering of detail entries by completeness percentage (`results.sort`
key of line 747). -/
def pctLE (a b : StockStat) : Prop := a.pct ≤ b.pct

instance : DecidableRel pctLE := fun a b => inferInstanceAs (Decidable (a.pct ≤ b.pct))

instance : IsTotal StockStat pctLE := ⟨fun a b => le_total a.pct b.pct⟩

instance : IsTrans StockStat pctLE := ⟨fun _ _ _ hab hbc => le_trans hab hbc⟩

/-- The detail list of the batch check: only stocks with `missing_count > 0`
are recorded (line 702) and the list is sorted ascending by completeness
(line 747).  The stored percentage is `round(·, 2)` of this value in the
code; rounding is monotone, so ordering statements are unaffected. -/
def batchDetails (stats : List StockStat) : List StockStat :=
  (stats.filter (fun st => decide (0 < st.missing))).insertionSort pctLE

/-! ### Task lifecycle and batch supplement orchestration -/

/-- Task status strings of the `tasks` registry. -/
inductive TaskStatus where
  | pending
  | running
  | completed
  | failed
deriving DecidableEq, Repr

/-- Allowed one-step transitions of the task state machine. -/
def stepOK (a b : TaskStatus) : Bool :=
  match a, b with
  | TaskStatus.pending, TaskStatus.running => true
  | TaskStatus.running, TaskStatus.completed => true
  | TaskStatus.running, TaskStatus.failed => true
  | _, _ => false

/-- Terminal statuses. -/
def isTerminal (s : TaskStatus) : Bool :=
  s = TaskStatus.completed || s = TaskStatus.failed

/-- A status trace is a valid lifecycle when consecutive statuses follow the
state machine and no terminal status is followed by anything. -/
def lifecycleOK (tr : List TaskStatus) : Prop :=
  List.Chain' (fun a b => stepOK a b = true) tr ∧
    ∀ a ∈ tr.dropLast, isTerminal a = false

/-- Failure points of `_start_download_task` (lines 964-1076): the db-engine
module may be unloaded, the client may fail, the query may be empty; all
other paths complete.  The optional database write (lines 1052-1055,
`_write_to_database`) swallows its own errors and never fails the task. -/
inductive DlOutcome where
  | noModule
  | noClient
  | emptyResult
  | okDone
deriving DecidableEq, Repr

/-- One write to a task record: either an assignment to its `status` key or
an assignment to one of the other keys (`message`, `progress`,
`download_url`, `filename`, `record_count`, `success_count`, `total_count`),
named by the key written. -/
inductive TaskWrite where
  | status (s : TaskStatus)
  | field (name : String)
deriving DecidableEq, Repr

/-- The status a write assigns, when it is a status write. -/
def writeStatus : TaskWrite → Option TaskStatus
  | TaskWrite.status s => some s
  | TaskWrite.field _ => none

/-- The sequence of values a write trace assigns to the `status` key. -/
def statusesOf (tr : List TaskWrite) : List TaskStatus :=
  tr.filterMap writeStatus

/-- Whether nothing at all is written to the record after a terminal status
has been written — the claim's "once Completed or Failed no operation
mutates its record again", checked at record granularity. -/
def noWriteAfterTerminal : List TaskWrite → Bool
  | [] => true
  | TaskWrite.status s :: rest =>
    if isTerminal s then rest.isEmpty else noWriteAfterTerminal rest
  | TaskWrite.field _ :: rest => noWriteAfterTerminal rest

/-- Record writes of one download task in source order: the `pending`
record creation (line 243), `running`/message/progress (lines 972-974),
then per outcome: module or client failure jumps to the `except` block
which writes `failed`, message and progress (lines 1074-1076); an empty
query result first passes the message/progress writes of lines 988-989;
the success path writes message/progress at lines 988-989, 1031-1032 and
1048-1049, the optional database write appends to the message twice (lines
1053 and 1650-1657), and completion writes `completed` followed by message,
progress, download_url, filename and record_count (lines 1060-1065). -/
def downloadWriteTrace (o : DlOutcome) (writeDb : Bool) : List TaskWrite :=
  [TaskWrite.status TaskStatus.pending, TaskWrite.status TaskStatus.running,
    TaskWrite.field "message", TaskWrite.field "progress"] ++
  match o with
  | DlOutcome.noModule =>
    [TaskWrite.status TaskStatus.failed, TaskWrite.field "message",
      TaskWrite.field "progress"]
  | DlOutcome.noClient =>
    [TaskWrite.status TaskStatus.failed, TaskWrite.field "message",
      TaskWrite.field "progress"]
  | DlOutcome.emptyResult =>
    [TaskWrite.field "message", TaskWrite.field "progress",
      TaskWrite.status TaskStatus.failed, TaskWrite.field "message",
      TaskWrite.field "progress"]
  | DlOutcome.okDone =>
    [TaskWrite.field "message", TaskWrite.field "progress",
      TaskWrite.field "message", TaskWrite.field "progress",
      TaskWrite.field "message", TaskWrite.field "progress"] ++
    (if writeDb then [TaskWrite.field "message", TaskWrite.field "message"]
      else []) ++
    [TaskWrite.status TaskStatus.completed, TaskWrite.field "message",
      TaskWrite.field "progress", TaskWrite.field "download_url",
      TaskWrite.field "filename", TaskWrite.field "record_count"]

/-- Record writes of one single-stock supplement task (lines 1078-1117):
creation, `running`/message/progress (lines 1086-1088), then the routed
supplement helper — which only ever writes message and progress
(`_supplement_data_baostock` lines 1271-1272, 1305-1306, 1321, 1339;
`_supplement_data_tushare` likewise), abstracted as an arbitrary list of
field writes — then `completed`/message/progress (lines 1103-1105) on
success or `failed`/message (lines 1108-1109, or 1116-1117 on an
exception) on failure. -/
def supplementWriteTrace (helperFields : List String) (supplementOk : Bool) :
    List TaskWrite :=
  [TaskWrite.status TaskStatus.pending, TaskWrite.status TaskStatus.running,
    TaskWrite.field "message", TaskWrite.field "progress"] ++
  helperFields.map TaskWrite.field ++
  (if supplementOk then
    [TaskWrite.status TaskStatus.completed, TaskWrite.field "message",
      TaskWrite.field "progress"]
  else [TaskWrite.status TaskStatus.failed, TaskWrite.field "message"])

/-- One entry of the `missing_stocks` payload of a batch supplement task,
with the outcome the routed per-stock supplement call would have
(`_supplement_single_stock_baostock` / `_supplement_single_stock_others`),
used as the oracle for the external providers. -/
structure BatchStockJob where
  code : String
  market : String
  ok : Bool
deriving DecidableEq, Repr

/-- Kind of the final message `_start_batch_supplement_task` writes. -/
inductive MsgKind where
  | allDone
  | partDone
  | noneDone
deriving DecidableEq, Repr

/-- Result of one batch supplement run. -/
structure BatchOutcome where
  successCount : Nat
  processedCount : Nat
  totalCount : Nat
  status : TaskStatus
  msgKind : MsgKind
  msgNum : Nat
  msgDenom : Nat
deriving DecidableEq, Repr

/-- Embedding of `_start_batch_supplement_task` (lines 1119-1240): the
stocks are grouped by their `market` string into SH, SZ and BJ lists (lines
1136-1138; a stock whose market is none of the three lands in no group and
is never processed), the SH+SZ group and then the BJ group are processed
one stock at a time with per-stock failures tallied but not aborting the
loop (lines 1149-1188), and the final status/message is chosen by the
three-way branch on `bj_count`/`huashen_count` with the sub-branches on
`success_count` (lines 1190-1226). -/
def runBatchSupplement (stocks : List BatchStockJob) : BatchOutcome :=
  let sh := stocks.filter (fun s => decide (s.market = "SH"))
  let sz := stocks.filter (fun s => decide (s.market = "SZ"))
  let bj := stocks.filter (fun s => decide (s.market = "BJ"))
  let hs := sh ++ sz
  let processed := hs ++ bj
  let succ : Nat := (processed.filter (fun s => s.ok)).length
  let total : Nat := stocks.length
  if 0 < bj.length ∧ 0 < hs.length then
    if succ = total then
      ⟨succ, processed.length, total, TaskStatus.completed, MsgKind.allDone, succ, total⟩
    else if 0 < succ then
      ⟨succ, processed.length, total, TaskStatus.completed, MsgKind.partDone, succ, total⟩
    else
      ⟨succ, processed.length, total, TaskStatus.failed, MsgKind.noneDone, succ, total⟩
  else if 0 < bj.length then
    if succ = bj.length then
      ⟨succ, processed.length, total, TaskStatus.completed, MsgKind.allDone, succ, bj.length⟩
    else if 0 < succ then
      ⟨succ, processed.length, total, TaskStatus.completed, MsgKind.partDone, succ, bj.length⟩
    else
      ⟨succ, processed.length, total, TaskStatus.failed, MsgKind.noneDone, succ, bj.length⟩
  else
    if succ = total then
      ⟨succ, processed.length, total, TaskStatus.completed, MsgKind.allDone, succ, total⟩
    else if 0 < succ then
      ⟨succ, processed.length, total, TaskStatus.completed, MsgKind.partDone, succ, total⟩
    else
      ⟨succ, processed.length, total, TaskStatus.failed, MsgKind.noneDone, succ, total⟩

/-- Status assignments of `_start_batch_supplement_task`: `pending` at
creation (line 328), `running` at line 1127, then the terminal status of
the finalization branch. -/
def batchStatusTrace (stocks : List BatchStockJob) : List TaskStatus :=
  [TaskStatus.pending, TaskStatus.running, (runBatchSupplement stocks).status]

/-- Record writes of one batch supplement task (lines 1119-1240): creation,
`running`/message/progress (lines 1127-1129), the per-stock loop — which
only writes message and progress (lines 1145, 1157, 1159), abstracted as an
arbitrary list of field writes — then the finalization branch writes the
terminal status and message (lines 1194-1226) followed by progress,
success_count and total_count (lines 1228-1230). -/
def batchWriteTrace (loopFields : List String) (stocks : List BatchStockJob) :
    List TaskWrite :=
  [TaskWrite.status TaskStatus.pending, TaskWrite.status TaskStatus.running,
    TaskWrite.field "message", TaskWrite.field "progress"] ++
  loopFields.map TaskWrite.field ++
  [TaskWrite.status (runBatchSupplement stocks).status, TaskWrite.field "message",
    TaskWrite.field "progress", TaskWrite.field "success_count",
    TaskWrite.field "total_count"]

/-! ### Store write paths (backfill inserts and the after-close daily job) -/

/-- One row of `cn_stock_history`, reduced to its key
`(date, code, market)`; the store is a row multiset, modelled as a list. -/
structure HistRow where
  date : Nat
  code : String
  market : String
deriving DecidableEq, Repr

/-- The write step of `_supplement_data_baostock` (line 1317) and
`_supplement_data_tushare` (line 1447): a bare `client.insert_df` of the
fetched rows, with no preceding delete. -/
def supplementWrite (store fetched : List HistRow) : List HistRow :=
  store ++ fetched

/-- Number of stored rows carrying a given `(date, code, market)` key. -/
def countKey (store : List HistRow) (d : Nat) (c m : String) : Nat :=
  (store.filter (fun r => decide (r.date = d ∧ r.code = c ∧ r.market = m))).length

/-- One row of the after-close job's table (`cn_stock_blocktrade`), keyed by
`(date, code)`. -/
structure BtRow where
  date : Nat
  code : String
deriving DecidableEq, Repr

/-- Embedding of `save_after_close_stock_blocktrade_data`
(basic_data_after_close_daily_job.py lines 20-37): nothing is written when
the fetch returns no rows; when the table already exists all rows of the
affected date are deleted before the fetched rows are inserted; a fresh
table starts from the insert alone. -/
def saveBlocktrade (tableExists : Bool) (d : Nat) (data : List BtRow)
    (store : List BtRow) : List BtRow :=
  if data.isEmpty then store
  else if tableExists then store.filter (fun r => decide (r.date ≠ d)) ++ data
  else store ++ data

/-- Number of stored job rows carrying a given `(date, code)` key. -/
def countBtKey (store : List BtRow) (d : Nat) (c : String) : Nat :=
  (store.filter (fun r => decide (r.date = d ∧ r.code = c))).length

/-! ### Chunked insert (`ClickHouseClient.batch_insert_dataframe`) -/

/-- Chunking of `range(0, total_rows, batch_size)` (clickhouse_client.py
line 242) for chunk size `b + 1` (the code's fixed default is 10000, i.e.
`b = 9999`): successive `take`s of the chunk size. -/
def chunksOf (b : Nat) (l : List α) : List (List α) :=
  match l with
  | [] => []
  | x :: xs => (x :: xs).take (b + 1) :: chunksOf b (xs.drop b)
termination_by l.length
decreasing_by simp [List.length_drop]; omega

/-- The chunk loop of `batch_insert_dataframe` (lines 242-250): chunk `i`
triggers one `insert_dataframe` call whose success is given by the external
oracle; on the first failing call the loop returns `False` at once, so the
remaining chunks are never attempted.  Returns overall success and the
number of insert calls issued. -/
def runChunks (oracle : Nat → Bool) : Nat → List (List α) → Bool × Nat
  | _, [] => (true, 0)
  | i, _ :: rest =>
    if oracle i then
      let r := runChunks oracle (i + 1) rest
      (r.1, r.2 + 1)
    else (false, 1)

/-- Embedding of `batch_insert_dataframe` (lines 221-257) at chunk size
`b + 1`: an empty frame is a successful no-op with no insert call (lines
233-235), otherwise the chunks are inserted in order until one fails. -/
def batchInsertDataframe (oracle : Nat → Bool) (b : Nat) (rows : List α) : Bool × Nat :=
  if rows.isEmpty then (true, 0)
  else runChunks oracle 0 (chunksOf b rows)

/-! ### Theorems -/

/-- C10: the exchange derived from a 6-digit stock code is total and
deterministic: a leading '6' maps to SH, '0' or '3' to SZ, '8' or '4' to
BJ, and any other leading digit defaults to SZ, so the result is always
one of the three exchanges. -/
theorem c10_market_routing (code : List Char) (h : isValidStockCode code = true) :
    (∀ c rest, code = c :: rest →
      (c = '6' → getMarketFromCode code = Market.SH) ∧
      ((c = '0' ∨ c = '3') → getMarketFromCode code = Market.SZ) ∧
      ((c = '8' ∨ c = '4') → getMarketFromCode code = Market.BJ) ∧
      ((c ≠ '6' ∧ c ≠ '0' ∧ c ≠ '3' ∧ c ≠ '8' ∧ c ≠ '4') →
        getMarketFromCode code = Market.SZ)) ∧
    (getMarketFromCode code = Market.SH ∨ getMarketFromCode code = Market.SZ ∨
      getMarketFromCode code = Market.BJ) := by
  constructor
  · rintro c rest rfl
    refine ⟨fun h6 => ?_, fun h03 => ?_, fun h84 => ?_, fun hother => ?_⟩
    · simp [getMarketFromCode, h6]
    · rcases h03 with h0 | h3
      · simp [getMarketFromCode, h0]
      · simp [getMarketFromCode, h3]
    · rcases h84 with h8 | h4
      · simp [getMarketFromCode, h8]
      · simp [getMarketFromCode, h4]
    · obtain ⟨n6, n0, n3, n8, n4⟩ := hother
      simp [getMarketFromCode, n6, n0, n3, n8, n4]
  · cases hm : getMarketFromCode code
    · exact Or.inl rfl
    · exact Or.inr (Or.inl rfl)
    · exact Or.inr (Or.inr rfl)

theorem c10_market_routing_witness :
    isValidStockCode ['6', '0', '0', '0', '0', '0'] = true ∧
    getMarketFromCode ['6', '0', '0', '0', '0', '0'] = Market.SH :=
  ⟨by decide,
    ((c10_market_routing ['6', '0', '0', '0', '0', '0'] (by decide)).1 '6'
      ['0', '0', '0', '0', '0'] rfl).1 rfl⟩

/-- C2 counterexample: a check with no listing date over a range containing
no trading day has `expectedCount = 0` but reports `completenessPct = 0`,
not 100, because the general percentage formula (line 540) uses 0 as the
empty-denominator fallback and only the late-listing early return (lines
461-477) reports 100. -/
theorem c2_empty_expected_counterexample :
    (checkOne (some []) 1 2 none (StoreQuery.ok [])).totalExpected = 0 ∧
    (checkOne (some []) 1 2 none (StoreQuery.ok [])).missingCount = 0 ∧
    (checkOne (some []) 1 2 none (StoreQuery.ok [])).success = true ∧
    ¬ (checkOne (some []) 1 2 none (StoreQuery.ok [])).completeness = 100 := by
  refine ⟨rfl, rfl, rfl, ?_⟩
  decide

/-- C2 amended: with a listing date later than the query end the early
return reports `expectedCount = 0`, `missingCount = 0` and
`completenessPct = 100`; in every other situation with an empty expected
set (no trading day in the effective range) the reported percentage is 0,
not 100. -/
theorem c2_empty_expected_amended :
    (∀ cal s e ip store, e < max s ip →
      (checkOne (some cal) s e (some ip) store).totalExpected = 0 ∧
      (checkOne (some cal) s e (some ip) store).missingCount = 0 ∧
      (checkOne (some cal) s e (some ip) store).completeness = 100) ∧
    (∀ cal s e store, expectedIn cal s e = [] →
      (checkOne (some cal) s e none store).totalExpected = 0 ∧
      (checkOne (some cal) s e none store).completeness = 0) ∧
    (∀ cal s e ip store, max s ip ≤ e →
      expectedIn cal (max s ip) e = [] →
      (checkOne (some cal) s e (some ip) store).totalExpected = 0 ∧
      (checkOne (some cal) s e (some ip) store).completeness = 0) := by
  refine ⟨fun cal s e ip store hlt => ?_, fun cal s e store hnil => ?_,
    fun cal s e ip store hle hnil => ?_⟩
  · simp [checkOne, hlt]
  · have hb : checkOne (some cal) s e none store = checkOneBody cal s e store := rfl
    rw [hb]
    cases store <;> simp [checkOneBody, missingOf, hnil, pctOf_zero_total]
  · have hlt : ¬ e < max s ip := not_lt.mpr hle
    have hb : checkOne (some cal) s e (some ip) store =
        checkOneBody cal (max s ip) e store := by
      simp only [checkOne, if_neg hlt]
    rw [hb]
    cases store <;> simp [checkOneBody, missingOf, hnil, pctOf_zero_total]

theorem c2_empty_expected_amended_witness :
    (checkOne (some [5, 6]) 1 2 (some 4) (StoreQuery.ok [])).completeness = 100 ∧
    (checkOne (some [5, 6]) 1 2 none (StoreQuery.ok [])).completeness = 0 ∧
    (checkOne (some [5, 6]) 1 2 (some 2) (StoreQuery.ok [])).completeness = 0 :=
  ⟨(c2_empty_expected_amended.1 [5, 6] 1 2 4 (StoreQuery.ok []) (by decide)).2.2,
    (c2_empty_expected_amended.2.1 [5, 6] 1 2 (StoreQuery.ok []) (by decide)).2,
    (c2_empty_expected_amended.2.2 [5, 6] 1 2 2 (StoreQuery.ok []) (by decide) (by decide)).2⟩

/-- C5 helper: `checkOne` on a store-failure outcome. -/
theorem checkOne_store_fail (cal : List Nat) (s e : Nat) (ipo : Option Nat)
    (store : StoreQuery)
    (h : store = StoreQuery.moduleMissing ∨ store = StoreQuery.queryError) :
    (checkOne (some cal) s e ipo store).missingAll = checkExpected cal s e ipo := by
  rcases ipo with _ | ip
  · show (checkOneBody cal s e store).missingAll = expectedIn cal s e
    rw [show (checkOneBody cal s e store).missingAll =
      missingOf (expectedIn cal s e) store from rfl, missingOf_fail _ _ h]
  · by_cases hlt : e < max s ip
    · simp only [checkOne, checkExpected, if_pos hlt]
    · simp only [checkOne, checkExpected, if_neg hlt]
      rw [show (checkOneBody cal (max s ip) e store).missingAll =
        missingOf (expectedIn cal (max s ip) e) store from rfl, missingOf_fail _ _ h]

/-- The percentage formula reports 100 when nothing is missing and at least
one day is expected. -/
theorem pctOf_zero_missing (n : Nat) (h : 0 < n) : pctOf n 0 = 100 := by
  unfold pctOf
  rw [if_pos h]
  have hn : (n : Rat) ≠ 0 := by
    exact_mod_cast Nat.pos_iff_ne_zero.mp h
  rw [Nat.cast_zero, sub_zero, div_self hn, one_mul]

/-- C5 counterexample: when the store is unreachable in the third way —
`create_clickhouse_client()` returns a falsy client, so the `if client:`
guard at line 496 skips the whole query block and nothing updates the
`missing_dates` initialized to `[]` at line 490 — the check returns a
successful report with `missingCount = 0` and completeness 100 over a
nonempty expected set, the opposite of "every expected trading date is
reported missing". -/
theorem c5_store_failure_counterexample :
    (checkOne (some [3, 4]) 1 5 none StoreQuery.clientNone).success = true ∧
    (checkOne (some [3, 4]) 1 5 none StoreQuery.clientNone).totalExpected = 2 ∧
    (checkOne (some [3, 4]) 1 5 none StoreQuery.clientNone).missingCount = 0 ∧
    (checkOne (some [3, 4]) 1 5 none StoreQuery.clientNone).completeness = 100 := by
  refine ⟨rfl, rfl, rfl, ?_⟩
  exact pctOf_zero_missing 2 (by norm_num)

/-- C5 amended: when the store failure manifests as the existing-dates
query raising or as the db-engine module being unloaded, the check returns
a successful report in which the whole expected-date set is reported
missing (`missingCount = expectedCount`); but when the store is unreachable
because the client factory returns a falsy client, the check still returns
a successful report that reports nothing missing — `missingCount = 0`,
`existingCount = 0` and completeness 100 whenever any day was expected. -/
theorem c5_store_failure_amended :
    (∀ cal s e ipo store,
      store = StoreQuery.moduleMissing ∨ store = StoreQuery.queryError →
      (checkOne (some cal) s e ipo store).success = true ∧
      (checkOne (some cal) s e ipo store).missingAll = checkExpected cal s e ipo ∧
      (checkOne (some cal) s e ipo store).missingCount =
        (checkOne (some cal) s e ipo store).totalExpected) ∧
    (∀ cal s e ipo,
      (checkOne (some cal) s e ipo StoreQuery.clientNone).success = true ∧
      (checkOne (some cal) s e ipo StoreQuery.clientNone).missingCount = 0 ∧
      (checkOne (some cal) s e ipo StoreQuery.clientNone).existingCount = 0 ∧
      (0 < (checkOne (some cal) s e ipo StoreQuery.clientNone).totalExpected →
        (checkOne (some cal) s e ipo StoreQuery.clientNone).completeness = 100)) := by
  constructor
  · intro cal s e ipo store h
    refine ⟨?_, checkOne_store_fail cal s e ipo store h, ?_⟩
    · rcases ipo with _ | ip
      · rfl
      · by_cases hlt : e < max s ip
        · simp only [checkOne, if_pos hlt]
        · simp only [checkOne, if_neg hlt]
          rfl
    · rcases ipo with _ | ip
      · show (missingOf (expectedIn cal s e) store).length = (expectedIn cal s e).length
        rw [missingOf_fail _ _ h]
      · by_cases hlt : e < max s ip
        · simp only [checkOne, if_pos hlt]
        · simp only [checkOne, if_neg hlt]
          show (missingOf (expectedIn cal (max s ip) e) store).length =
            (expectedIn cal (max s ip) e).length
          rw [missingOf_fail _ _ h]
  · intro cal s e ipo
    rcases ipo with _ | ip
    · exact ⟨rfl, rfl, rfl, fun hp => pctOf_zero_missing _ hp⟩
    · by_cases hlt : e < max s ip
      · simp [checkOne, hlt]
      · simp only [checkOne, if_neg hlt]
        exact ⟨rfl, rfl, rfl, fun hp => pctOf_zero_missing _ hp⟩

theorem c5_store_failure_amended_witness :
    ((checkOne (some [3, 4]) 1 5 none StoreQuery.queryError).success = true ∧
      (checkOne (some [3, 4]) 1 5 none StoreQuery.queryError).missingCount =
        (checkOne (some [3, 4]) 1 5 none StoreQuery.queryError).totalExpected) ∧
    (checkOne (some [3, 4]) 1 5 none StoreQuery.clientNone).missingCount = 0 :=
  ⟨⟨(c5_store_failure_amended.1 [3, 4] 1 5 none StoreQuery.queryError (Or.inr rfl)).1,
      (c5_store_failure_amended.1 [3, 4] 1 5 none StoreQuery.queryError (Or.inr rfl)).2.2⟩,
    (c5_store_failure_amended.2 [3, 4] 1 5 none).2.1⟩

/-- The missing list is always a sublist of the expected list it was
computed from. -/
theorem missingOf_subset (expected : List Nat) (store : StoreQuery) {d : Nat}
    (hd : d ∈ missingOf expected store) : d ∈ expected := by
  cases store with
  | ok ex =>
    simp only [missingOf] at hd
    exact List.mem_of_mem_filter hd
  | moduleMissing => exact hd
  | queryError => exact hd
  | clientNone => exact absurd hd (List.not_mem_nil d)

/-- The missing list is never longer than the expected list. -/
theorem missingOf_length_le (expected : List Nat) (store : StoreQuery) :
    (missingOf expected store).length ≤ expected.length := by
  cases store with
  | ok ex => exact List.length_filter_le _ _
  | moduleMissing => exact le_refl _
  | queryError => exact le_refl _
  | clientNone => exact Nat.zero_le _

/-- C4 counterexample: in the batch check `missing_count` is the plain
integer subtraction `stock_expected_days - existing_count` (line 690), so a
stock whose aggregate row count exceeds its expected day count gets a
negative missing count: 3 expected trading days against 5 stored rows
yields `missing_count = -2`. -/
theorem c4_missing_bounds_counterexample :
    (batchStockStat [1, 2, 3] 1 3 ⟨"000001", "SZ", none, 5⟩).map StockStat.missing =
      some (-2) ∧ (-2 : Int) < 0 := by
  constructor
  · rfl
  · decide

/-- C4 amended: in the single-instrument check the missing list is a subset
of the expected list, the expected list is a subset of the calendar
restricted to `[start, end]`, and `0 ≤ missingCount ≤ expectedCount` holds
(counts are naturals there); in the batch check `missingCount ≤
expectedCount` still holds but the integer `missing_count` can be negative. -/
theorem c4_missing_bounds_amended :
    (∀ cal s e ipo store,
      (∀ d, d ∈ (checkOne (some cal) s e ipo store).missingAll →
        d ∈ checkExpected cal s e ipo) ∧
      (∀ d, d ∈ checkExpected cal s e ipo → d ∈ expectedIn cal s e) ∧
      (checkOne (some cal) s e ipo store).missingCount ≤
        (checkOne (some cal) s e ipo store).totalExpected) ∧
    (∀ cal s e inp st, batchStockStat cal s e inp = some st →
      st.missing ≤ (st.expected : Int)) := by
  constructor
  · intro cal s e ipo store
    refine ⟨?_, ?_, ?_⟩
    · intro d hd
      rcases ipo with _ | ip
      · exact missingOf_subset _ _ hd
      · by_cases hlt : e < max s ip
        · simp only [checkOne, if_pos hlt] at hd
          simp at hd
        · simp only [checkOne, if_neg hlt] at hd
          simp only [checkExpected, if_neg hlt]
          exact missingOf_subset _ _ hd
    · intro d hd
      rcases ipo with _ | ip
      · exact hd
      · by_cases hlt : e < max s ip
        · simp only [checkExpected, if_pos hlt] at hd
          simp at hd
        · simp only [checkExpected, if_neg hlt] at hd
          simp only [expectedIn, List.mem_filter] at hd ⊢
          refine ⟨hd.1, ?_⟩
          have h2 := hd.2
          simp only [decide_eq_true_eq] at h2 ⊢
          omega
    · rcases ipo with _ | ip
      · exact missingOf_length_le _ _
      · by_cases hlt : e < max s ip
        · simp only [checkOne, if_pos hlt]
          exact le_refl _
        · simp only [checkOne, if_neg hlt]
          exact missingOf_length_le _ _
  · intro cal s e inp st hst
    rcases hip : inp.ipo with _ | ip
    · simp only [batchStockStat, hip] at hst
      obtain rfl := Option.some.inj hst
      simp only [mkStockStat]
      omega
    · simp only [batchStockStat, hip] at hst
      by_cases hle : max s ip ≤ e
      · rw [if_pos hle] at hst
        obtain rfl := Option.some.inj hst
        simp only [mkStockStat]
        omega
      · rw [if_neg hle] at hst
        cases hst

theorem c4_missing_bounds_amended_witness :
    (checkOne (some [2, 9]) 1 5 none (StoreQuery.ok [2])).missingCount ≤
      (checkOne (some [2, 9]) 1 5 none (StoreQuery.ok [2])).totalExpected ∧
    (mkStockStat ⟨"000001", "SZ", none, 5⟩ 3).missing ≤
      ((mkStockStat ⟨"000001", "SZ", none, 5⟩ 3).expected : Int) :=
  ⟨(c4_missing_bounds_amended.1 [2, 9] 1 5 none (StoreQuery.ok [2])).2.2,
    c4_missing_bounds_amended.2 [1, 2, 3] 1 3 ⟨"000001", "SZ", none, 5⟩
      (mkStockStat ⟨"000001", "SZ", none, 5⟩ 3) rfl⟩

/-- The `complete` classification happens exactly at or above 99 percent. -/
theorem classifyBand_complete_iff (pct : Rat) :
    classifyBand pct = Band.complete ↔ 99 ≤ pct := by
  by_cases h1 : 99 ≤ pct
  · simp [classifyBand, h1]
  · by_cases h2 : 50 ≤ pct
    · simp [classifyBand, h1, h2]
    · simp [classifyBand, h1, h2]

/-- The `someMissing` classification happens exactly in `[50, 99)`. -/
theorem classifyBand_someMissing_iff (pct : Rat) :
    classifyBand pct = Band.someMissing ↔ 50 ≤ pct ∧ pct < 99 := by
  by_cases h1 : 99 ≤ pct
  · have h99 : ¬ pct < 99 := not_lt.mpr h1
    simp [classifyBand, h1, h99]
  · by_cases h2 : 50 ≤ pct
    · simp [classifyBand, h1, h2, lt_of_not_le h1]
    · simp [classifyBand, h1, h2]

/-- The `severeMissing` classification happens exactly below 50 percent. -/
theorem classifyBand_severe_iff (pct : Rat) :
    classifyBand pct = Band.severeMissing ↔ pct < 50 := by
  by_cases h1 : 99 ≤ pct
  · have h50 : ¬ pct < 50 := by linarith
    simp [classifyBand, h1, h50]
  · by_cases h2 : 50 ≤ pct
    · have h50 : ¬ pct < 50 := not_lt.mpr h2
      simp [classifyBand, h1, h2, h50]
    · simp [classifyBand, h1, h2, lt_of_not_le h2]

/-- Unfolding lemma for the summary tally with an arbitrary accumulator. -/
theorem summarize_go (stats : List StockStat) : ∀ acc : BatchSummary,
    stats.foldl (fun acc st => bumpBand acc (classifyBand st.pct)) acc =
      ⟨acc.completeStocks +
          stats.countP (fun st => decide (classifyBand st.pct = Band.complete)),
        acc.midMissing +
          stats.countP (fun st => decide (classifyBand st.pct = Band.someMissing)),
        acc.severeMissing +
          stats.countP (fun st => decide (classifyBand st.pct = Band.severeMissing))⟩ := by
  induction stats with
  | nil => intro acc; simp
  | cons st rest ih =>
    intro acc
    rw [List.foldl_cons, ih, List.countP_cons, List.countP_cons, List.countP_cons]
    cases hb : classifyBand st.pct <;>
      simp [bumpBand, hb] <;> omega

/-- The three bands partition the stock list: the band counts sum to its
length. -/
theorem band_count_partition (stats : List StockStat) :
    stats.countP (fun st => decide (99 ≤ st.pct)) +
      stats.countP (fun st => decide (50 ≤ st.pct ∧ st.pct < 99)) +
      stats.countP (fun st => decide (st.pct < 50)) = stats.length := by
  induction stats with
  | nil => rfl
  | cons st rest ih =>
    by_cases h1 : 99 ≤ st.pct
    · have h2 : ¬ (50 ≤ st.pct ∧ st.pct < 99) := by
        rintro ⟨-, hlt⟩
        linarith
      have h3 : ¬ st.pct < 50 := by linarith
      rw [List.countP_cons_of_pos _ _ (by simpa using h1),
        List.countP_cons_of_neg _ _ (by simpa using h2),
        List.countP_cons_of_neg _ _ (by simpa using h3), List.length_cons]
      omega
    · by_cases h2 : 50 ≤ st.pct
      · have h2' : 50 ≤ st.pct ∧ st.pct < 99 := ⟨h2, lt_of_not_le h1⟩
        have h3 : ¬ st.pct < 50 := by linarith
        rw [List.countP_cons_of_neg _ _ (by simpa using h1),
          List.countP_cons_of_pos _ _ (by simpa using h2'),
          List.countP_cons_of_neg _ _ (by simpa using h3), List.length_cons]
        omega
      · have h3 : st.pct < 50 := lt_of_not_le h2
        have h2' : ¬ (50 ≤ st.pct ∧ st.pct < 99) := by
          rintro ⟨hle, -⟩
          exact h2 hle
        rw [List.countP_cons_of_neg _ _ (by simpa using h1),
          List.countP_cons_of_neg _ _ (by simpa using h2'),
          List.countP_cons_of_pos _ _ (by simpa using h3), List.length_cons]
        omega

/-- The summary counters are the counts of the three percentage bands. -/
theorem summarize_eq (stats : List StockStat) :
    summarize stats =
      ⟨stats.countP (fun st => decide (99 ≤ st.pct)),
        stats.countP (fun st => decide (50 ≤ st.pct ∧ st.pct < 99)),
        stats.countP (fun st => decide (st.pct < 50))⟩ := by
  unfold summarize
  rw [summarize_go]
  have h1 : stats.countP (fun st => decide (classifyBand st.pct = Band.complete)) =
      stats.countP (fun st => decide (99 ≤ st.pct)) :=
    List.countP_congr (fun st _ => by simp [classifyBand_complete_iff])
  have h2 : stats.countP (fun st => decide (classifyBand st.pct = Band.someMissing)) =
      stats.countP (fun st => decide (50 ≤ st.pct ∧ st.pct < 99)) :=
    List.countP_congr (fun st _ => by simp [classifyBand_someMissing_iff])
  have h3 : stats.countP (fun st => decide (classifyBand st.pct = Band.severeMissing)) =
      stats.countP (fun st => decide (st.pct < 50)) :=
    List.countP_congr (fun st _ => by simp [classifyBand_severe_iff])
  simp [h1, h2, h3]

/-- C9: every in-scope stock of a batch check falls in exactly one band
(`complete` at or above 99 percent, `someMissing` in `[50, 99)`,
`severeMissing` below 50), the three band counters partition the in-scope
stocks, and the detail list is a permutation of exactly the stocks with a
positive missing count, sorted ascending by completeness. -/
theorem c9_bands_and_details (cal : List Nat) (s e : Nat)
    (inputs : List BatchStockInput) :
    (summarize (batchStats cal s e inputs)).completeStocks =
        (batchStats cal s e inputs).countP (fun st => decide (99 ≤ st.pct)) ∧
    (summarize (batchStats cal s e inputs)).midMissing =
        (batchStats cal s e inputs).countP
          (fun st => decide (50 ≤ st.pct ∧ st.pct < 99)) ∧
    (summarize (batchStats cal s e inputs)).severeMissing =
        (batchStats cal s e inputs).countP (fun st => decide (st.pct < 50)) ∧
    (summarize (batchStats cal s e inputs)).completeStocks +
        (summarize (batchStats cal s e inputs)).midMissing +
        (summarize (batchStats cal s e inputs)).severeMissing =
      (batchStats cal s e inputs).length ∧
    List.Perm (batchDetails (batchStats cal s e inputs))
      ((batchStats cal s e inputs).filter (fun st => decide (0 < st.missing))) ∧
    List.Sorted pctLE (batchDetails (batchStats cal s e inputs)) := by
  refine ⟨?_, ?_, ?_, ?_, ?_, ?_⟩
  · rw [summarize_eq]
  · rw [summarize_eq]
  · rw [summarize_eq]
  · rw [summarize_eq]
    exact band_count_partition (batchStats cal s e inputs)
  · exact List.perm_insertionSort pctLE _
  · exact List.sorted_insertionSort pctLE _

/-- Splitting a stock list into its SH, SZ and BJ groups loses nothing when
every market is one of the three: any further filter `q` counts the same on
the three groups together as on the whole list. -/
theorem three_filter_split (q : BatchStockJob → Bool) (stocks : List BatchStockJob)
    (h : ∀ s ∈ stocks, s.market = "SH" ∨ s.market = "SZ" ∨ s.market = "BJ") :
    ((stocks.filter (fun s => decide (s.market = "SH"))).filter q).length +
      ((stocks.filter (fun s => decide (s.market = "SZ"))).filter q).length +
      ((stocks.filter (fun s => decide (s.market = "BJ"))).filter q).length =
      (stocks.filter q).length := by
  induction stocks with
  | nil => rfl
  | cons a l ih =>
    have ha := h a (List.mem_cons_self a l)
    have hl : ∀ s ∈ l, s.market = "SH" ∨ s.market = "SZ" ∨ s.market = "BJ" :=
      fun s hs => h s (List.mem_cons_of_mem a hs)
    have ihl := ih hl
    rcases ha with hm | hm | hm
    · have e1 : List.filter (fun s => decide (s.market = "SH")) (a :: l) =
          a :: List.filter (fun s => decide (s.market = "SH")) l :=
        List.filter_cons_of_pos (by simp [hm])
      have e2 : List.filter (fun s => decide (s.market = "SZ")) (a :: l) =
          List.filter (fun s => decide (s.market = "SZ")) l :=
        List.filter_cons_of_neg (by simp [hm])
      have e3 : List.filter (fun s => decide (s.market = "BJ")) (a :: l) =
          List.filter (fun s => decide (s.market = "BJ")) l :=
        List.filter_cons_of_neg (by simp [hm])
      rw [e1, e2, e3, List.filter_cons, List.filter_cons]
      by_cases hq : q a = true
      · simp only [if_pos hq, List.length_cons]
        omega
      · simp only [if_neg hq]
        omega
    · have e1 : List.filter (fun s => decide (s.market = "SH")) (a :: l) =
          List.filter (fun s => decide (s.market = "SH")) l :=
        List.filter_cons_of_neg (by simp [hm])
      have e2 : List.filter (fun s => decide (s.market = "SZ")) (a :: l) =
          a :: List.filter (fun s => decide (s.market = "SZ")) l :=
        List.filter_cons_of_pos (by simp [hm])
      have e3 : List.filter (fun s => decide (s.market = "BJ")) (a :: l) =
          List.filter (fun s => decide (s.market = "BJ")) l :=
        List.filter_cons_of_neg (by simp [hm])
      rw [e1, e2, e3, List.filter_cons, List.filter_cons]
      by_cases hq : q a = true
      · simp only [if_pos hq, List.length_cons]
        omega
      · simp only [if_neg hq]
        omega
    · have e1 : List.filter (fun s => decide (s.market = "SH")) (a :: l) =
          List.filter (fun s => decide (s.market = "SH")) l :=
        List.filter_cons_of_neg (by simp [hm])
      have e2 : List.filter (fun s => decide (s.market = "SZ")) (a :: l) =
          List.filter (fun s => decide (s.market = "SZ")) l :=
        List.filter_cons_of_neg (by simp [hm])
      have e3 : List.filter (fun s => decide (s.market = "BJ")) (a :: l) =
          a :: List.filter (fun s => decide (s.market = "BJ")) l :=
        List.filter_cons_of_pos (by simp [hm])
      rw [e1, e2, e3, List.filter_cons, List.filter_cons]
      by_cases hq : q a = true
      · simp only [if_pos hq, List.length_cons]
        omega
      · simp only [if_neg hq]
        omega

/-- The finalization of the batch supplement task always lands on a
terminal status. -/
theorem runBatch_status_terminal (stocks : List BatchStockJob) :
    isTerminal (runBatchSupplement stocks).status = true := by
  dsimp only [runBatchSupplement]
  split_ifs <;> rfl

/-- The canonical worker trace `pending, running, terminal` is a valid
lifecycle. -/
theorem lifecycle_pending_running_terminal (t : TaskStatus)
    (ht : isTerminal t = true) :
    lifecycleOK [TaskStatus.pending, TaskStatus.running, t] := by
  have hchain : ∀ u : TaskStatus, isTerminal u = true →
      List.Chain' (fun a b => stepOK a b = true)
        [TaskStatus.pending, TaskStatus.running, u] := by
    intro u hu
    cases u
    · exact Bool.noConfusion hu
    · exact Bool.noConfusion hu
    · exact List.chain'_cons.mpr ⟨rfl, List.chain'_cons.mpr ⟨rfl, List.chain'_singleton _⟩⟩
    · exact List.chain'_cons.mpr ⟨rfl, List.chain'_cons.mpr ⟨rfl, List.chain'_singleton _⟩⟩
  refine ⟨hchain t ht, ?_⟩
  intro a ha
  have hdl : [TaskStatus.pending, TaskStatus.running, t].dropLast =
      [TaskStatus.pending, TaskStatus.running] := rfl
  rw [hdl] at ha
  simp only [List.mem_cons, List.not_mem_nil, or_false] at ha
  rcases ha with rfl | rfl <;> rfl

/-- A list of field writes contributes no status value. -/
theorem statusesOf_map_field (fs : List String) :
    statusesOf (fs.map TaskWrite.field) = [] := by
  induction fs with
  | nil => rfl
  | cons a l ih =>
    simp only [List.map_cons, statusesOf, List.filterMap_cons, writeStatus]
    exact ih

/-- C6 counterexample: the workers keep mutating the record after writing
the terminal status.  The successful download task writes message,
progress, download_url, filename and record_count after `completed` (lines
1060-1065); the failed one writes message and resets progress after
`failed` (lines 1074-1076); the batch task writes message, progress,
success_count and total_count after its terminal status (lines 1194-1230).
So "once Completed or Failed no operation mutates its record again" is
false at record granularity. -/
theorem c6_terminal_mutation_counterexample :
    noWriteAfterTerminal (downloadWriteTrace DlOutcome.okDone false) = false ∧
    noWriteAfterTerminal (downloadWriteTrace DlOutcome.noClient false) = false ∧
    noWriteAfterTerminal
      (batchWriteTrace ["message", "progress"] [⟨"600000", "SH", true⟩]) = false := by
  refine ⟨rfl, rfl, ?_⟩
  rfl

/-- C6 amended: in each of the three background workers the `status` key
only ever moves along pending, running, then one terminal value, and no
status write follows a terminal one — but the completing operation goes on
writing non-status keys (message, progress, download_url, filename,
record_count, success_count, total_count) after the terminal status, so
the no-further-mutation part of the claim holds for the status field only,
not for the whole record. -/
theorem c6_status_lifecycle_amended :
    (∀ o writeDb, lifecycleOK (statusesOf (downloadWriteTrace o writeDb))) ∧
    (∀ helperFields supplementOk,
      lifecycleOK (statusesOf (supplementWriteTrace helperFields supplementOk))) ∧
    (∀ loopFields stocks,
      lifecycleOK (statusesOf (batchWriteTrace loopFields stocks))) := by
  refine ⟨fun o writeDb => ?_, fun helperFields supplementOk => ?_,
    fun loopFields stocks => ?_⟩
  · cases o <;> cases writeDb <;>
      exact lifecycle_pending_running_terminal _ rfl
  · have hs : statusesOf (supplementWriteTrace helperFields supplementOk) =
        [TaskStatus.pending, TaskStatus.running,
          if supplementOk then TaskStatus.completed else TaskStatus.failed] := by
      unfold supplementWriteTrace statusesOf
      rw [List.filterMap_append, List.filterMap_append]
      rw [show (helperFields.map TaskWrite.field).filterMap writeStatus = []
        from statusesOf_map_field helperFields]
      cases supplementOk <;> rfl
    rw [hs]
    cases supplementOk
    · exact lifecycle_pending_running_terminal _ rfl
    · exact lifecycle_pending_running_terminal _ rfl
  · have hs : statusesOf (batchWriteTrace loopFields stocks) =
        [TaskStatus.pending, TaskStatus.running,
          (runBatchSupplement stocks).status] := by
      unfold batchWriteTrace statusesOf
      rw [List.filterMap_append, List.filterMap_append]
      rw [show (loopFields.map TaskWrite.field).filterMap writeStatus = []
        from statusesOf_map_field loopFields]
      rfl
    rw [hs]
    exact lifecycle_pending_running_terminal _ (runBatch_status_terminal stocks)

/-- Characterization of the batch supplement finalization when every stock
carries a supported market string: all three grouping branches collapse to
the same three-way comparison of the success tally against the total. -/
theorem runBatch_supported (stocks : List BatchStockJob)
    (h : ∀ s ∈ stocks, s.market = "SH" ∨ s.market = "SZ" ∨ s.market = "BJ") :
    runBatchSupplement stocks =
      (if (stocks.filter (fun s => s.ok)).length = stocks.length then
        ⟨(stocks.filter (fun s => s.ok)).length, stocks.length, stocks.length,
          TaskStatus.completed, MsgKind.allDone,
          (stocks.filter (fun s => s.ok)).length, stocks.length⟩
      else if 0 < (stocks.filter (fun s => s.ok)).length then
        ⟨(stocks.filter (fun s => s.ok)).length, stocks.length, stocks.length,
          TaskStatus.completed, MsgKind.partDone,
          (stocks.filter (fun s => s.ok)).length, stocks.length⟩
      else
        ⟨(stocks.filter (fun s => s.ok)).length, stocks.length, stocks.length,
          TaskStatus.failed, MsgKind.noneDone,
          (stocks.filter (fun s => s.ok)).length, stocks.length⟩ : BatchOutcome) := by
  have hsplit := three_filter_split (fun _ => true) stocks h
  rw [List.filter_true, List.filter_true, List.filter_true, List.filter_true] at hsplit
  have hp : ((stocks.filter (fun s => decide (s.market = "SH")) ++
        stocks.filter (fun s => decide (s.market = "SZ"))) ++
        stocks.filter (fun s => decide (s.market = "BJ"))).length = stocks.length := by
    simp only [List.length_append]
    omega
  have hq : (((stocks.filter (fun s => decide (s.market = "SH")) ++
        stocks.filter (fun s => decide (s.market = "SZ"))) ++
        stocks.filter (fun s => decide (s.market = "BJ"))).filter
          (fun s => s.ok)).length = (stocks.filter (fun s => s.ok)).length := by
    simp only [List.filter_append, List.length_append]
    have := three_filter_split (fun s => s.ok) stocks h
    omega
  dsimp only [runBatchSupplement]
  rw [hp, hq]
  by_cases hbj : 0 < (stocks.filter (fun s => decide (s.market = "BJ"))).length
  · by_cases hhs : 0 < (stocks.filter (fun s => decide (s.market = "SH")) ++
        stocks.filter (fun s => decide (s.market = "SZ"))).length
    · rw [if_pos ⟨hbj, hhs⟩]
    · rw [if_neg (fun hc => hhs hc.2), if_pos hbj]
      have hz : (stocks.filter (fun s => decide (s.market = "SH")) ++
          stocks.filter (fun s => decide (s.market = "SZ"))).length = 0 :=
        Nat.eq_zero_of_not_pos hhs
      have hbjT : (stocks.filter (fun s => decide (s.market = "BJ"))).length =
          stocks.length := by
        simp only [List.length_append] at hz
        omega
      rw [hbjT]
  · rw [if_neg (fun hc => hbj hc.1), if_neg hbj]

/-- C7: over a non-empty batch whose markets are all supported, every
instrument is processed (one failure never aborts the rest), the success
tally counts exactly the instruments whose supplement succeeded, the final
message reports that tally over the full total, and the outcome is
`allDone` exactly when all succeeded, `partDone` exactly when some but not
all succeeded, and status `failed` exactly when none succeeded. -/
theorem c7_batch_tally_amended (stocks : List BatchStockJob) (hne : stocks ≠ [])
    (h : ∀ s ∈ stocks, s.market = "SH" ∨ s.market = "SZ" ∨ s.market = "BJ") :
    (runBatchSupplement stocks).processedCount = stocks.length ∧
    (runBatchSupplement stocks).successCount =
      (stocks.filter (fun s => s.ok)).length ∧
    (runBatchSupplement stocks).msgNum = (runBatchSupplement stocks).successCount ∧
    (runBatchSupplement stocks).msgDenom = stocks.length ∧
    ((runBatchSupplement stocks).msgKind = MsgKind.allDone ↔
      (stocks.filter (fun s => s.ok)).length = stocks.length) ∧
    ((runBatchSupplement stocks).msgKind = MsgKind.partDone ↔
      0 < (stocks.filter (fun s => s.ok)).length ∧
        (stocks.filter (fun s => s.ok)).length < stocks.length) ∧
    ((runBatchSupplement stocks).status = TaskStatus.failed ↔
      (stocks.filter (fun s => s.ok)).length = 0) ∧
    ((runBatchSupplement stocks).status = TaskStatus.completed ↔
      0 < (stocks.filter (fun s => s.ok)).length) := by
  have hT : 0 < stocks.length := List.length_pos.mpr hne
  have hST : (stocks.filter (fun s => s.ok)).length ≤ stocks.length :=
    List.length_filter_le _ _
  rw [runBatch_supported stocks h]
  by_cases h1 : (stocks.filter (fun s => s.ok)).length = stocks.length
  · rw [if_pos h1]
    exact ⟨rfl, rfl, rfl, rfl,
      iff_of_true rfl h1,
      iff_of_false (fun hx => MsgKind.noConfusion hx) (by omega),
      iff_of_false (fun hx => TaskStatus.noConfusion hx) (by omega),
      iff_of_true rfl (by omega)⟩
  · rw [if_neg h1]
    by_cases h2 : 0 < (stocks.filter (fun s => s.ok)).length
    · rw [if_pos h2]
      exact ⟨rfl, rfl, rfl, rfl,
        iff_of_false (fun hx => MsgKind.noConfusion hx) h1,
        iff_of_true rfl ⟨h2, by omega⟩,
        iff_of_false (fun hx => TaskStatus.noConfusion hx) (by omega),
        iff_of_true rfl h2⟩
    · rw [if_neg h2]
      exact ⟨rfl, rfl, rfl, rfl,
        iff_of_false (fun hx => MsgKind.noConfusion hx) h1,
        iff_of_false (fun hx => MsgKind.noConfusion hx) (by omega),
        iff_of_true rfl (by omega),
        iff_of_false (fun hx => TaskStatus.noConfusion hx) (by omega)⟩

theorem c7_batch_tally_amended_witness :
    (runBatchSupplement [⟨"600000", "SH", true⟩, ⟨"000001", "SZ", false⟩]).status =
        TaskStatus.completed ∧
    (runBatchSupplement [⟨"600000", "SH", true⟩, ⟨"000001", "SZ", false⟩]).msgKind =
        MsgKind.partDone :=
  ⟨((c7_batch_tally_amended [⟨"600000", "SH", true⟩, ⟨"000001", "SZ", false⟩]
      (by decide) (by decide)).2.2.2.2.2.2.2).mpr (by decide),
    ((c7_batch_tally_amended [⟨"600000", "SH", true⟩, ⟨"000001", "SZ", false⟩]
      (by decide) (by decide)).2.2.2.2.2.1).mpr (by decide)⟩

/-- C7 counterexample: a batch of one BJ stock whose supplement succeeds
plus one stock with an unrecognized market string lands in the BJ-only
finalization branch with `bj_count` as the denominator: the task reports a
fully-complete message (`allDone`, 1/1) although only one of the two
instruments succeeded, and the skipped instrument was never processed. -/
theorem c7_batch_tally_counterexample :
    (runBatchSupplement [⟨"430047", "BJ", true⟩, ⟨"999999", "XX", true⟩]).msgKind =
        MsgKind.allDone ∧
    (runBatchSupplement [⟨"430047", "BJ", true⟩, ⟨"999999", "XX", true⟩]).successCount = 1 ∧
    (runBatchSupplement [⟨"430047", "BJ", true⟩, ⟨"999999", "XX", true⟩]).totalCount = 2 ∧
    (runBatchSupplement [⟨"430047", "BJ", true⟩, ⟨"999999", "XX", true⟩]).msgDenom = 1 ∧
    (runBatchSupplement [⟨"430047", "BJ", true⟩, ⟨"999999", "XX", true⟩]).processedCount = 1 := by
  decide

/-- C3 counterexample: a batch supplement submission whose only instrument
routes to no provider (market string outside SH/SZ/BJ) still sets the task
to `running` before any routing happens (line 1127), contradicting the
claim that such a task never reaches Running; the instrument is silently
skipped (processed count 0) and the final message is the generic 0-of-n
failure tally, not an unsupported-market message. -/
theorem c3_unsupported_market_counterexample :
    TaskStatus.running ∈ batchStatusTrace [⟨"999999", "XX", true⟩] ∧
    (runBatchSupplement [⟨"999999", "XX", true⟩]).status = TaskStatus.failed ∧
    (runBatchSupplement [⟨"999999", "XX", true⟩]).processedCount = 0 ∧
    (runBatchSupplement [⟨"999999", "XX", true⟩]).msgKind = MsgKind.noneDone := by
  decide

/-- C3 amended: a batch whose instruments all route to no provider is set
Running first and then Failed; the unsupported instruments are silently
skipped (never processed, no per-instrument unsupported-market failure) and
the final message is the generic 0-of-total tally. -/
theorem c3_unsupported_market_amended (stocks : List BatchStockJob)
    (hne : stocks ≠ [])
    (h : ∀ s ∈ stocks, s.market ≠ "SH" ∧ s.market ≠ "SZ" ∧ s.market ≠ "BJ") :
    batchStatusTrace stocks =
      [TaskStatus.pending, TaskStatus.running, TaskStatus.failed] ∧
    (runBatchSupplement stocks).processedCount = 0 ∧
    (runBatchSupplement stocks).successCount = 0 ∧
    (runBatchSupplement stocks).msgKind = MsgKind.noneDone ∧
    (runBatchSupplement stocks).msgDenom = stocks.length := by
  have hsh : stocks.filter (fun s => decide (s.market = "SH")) = [] :=
    List.filter_eq_nil_iff.mpr (fun a ha => by simpa using (h a ha).1)
  have hsz : stocks.filter (fun s => decide (s.market = "SZ")) = [] :=
    List.filter_eq_nil_iff.mpr (fun a ha => by simpa using (h a ha).2.1)
  have hbj : stocks.filter (fun s => decide (s.market = "BJ")) = [] :=
    List.filter_eq_nil_iff.mpr (fun a ha => by simpa using (h a ha).2.2)
  have hT : 0 < stocks.length := List.length_pos.mpr hne
  have hrb : runBatchSupplement stocks =
      ⟨0, 0, stocks.length, TaskStatus.failed, MsgKind.noneDone, 0, stocks.length⟩ := by
    dsimp only [runBatchSupplement]
    rw [hsh, hsz, hbj]
    have hc1 : ¬ (0 < ([] : List BatchStockJob).length ∧
        0 < (([] : List BatchStockJob) ++ ([] : List BatchStockJob)).length) := by
      simp
    rw [if_neg hc1, if_neg (show ¬ 0 < ([] : List BatchStockJob).length by simp)]
    have hS : (List.filter (fun s : BatchStockJob => s.ok)
        ((([] : List BatchStockJob) ++ ([] : List BatchStockJob)) ++
          ([] : List BatchStockJob))).length = 0 := rfl
    rw [hS, if_neg (show ¬ (0 = stocks.length) by omega),
      if_neg (show ¬ (0 : Nat) < 0 by omega)]
    rfl
  refine ⟨?_, ?_, ?_, ?_, ?_⟩
  · unfold batchStatusTrace
    rw [hrb]
  · rw [hrb]
  · rw [hrb]
  · rw [hrb]
  · rw [hrb]

theorem c3_unsupported_market_amended_witness :
    batchStatusTrace [⟨"999999", "XX", true⟩, ⟨"888888", "US", false⟩] =
      [TaskStatus.pending, TaskStatus.running, TaskStatus.failed] ∧
    (runBatchSupplement [⟨"999999", "XX", true⟩, ⟨"888888", "US", false⟩]).msgDenom = 2 :=
  ⟨(c3_unsupported_market_amended [⟨"999999", "XX", true⟩, ⟨"888888", "US", false⟩]
      (by decide) (by decide)).1,
    (c3_unsupported_market_amended [⟨"999999", "XX", true⟩, ⟨"888888", "US", false⟩]
      (by decide) (by decide)).2.2.2.2⟩

/-- C1 counterexample: the supplement backfill write path inserts the
fetched rows with a bare `insert_df` and no preceding delete (line 1317),
so re-inserting a row whose `(date, code, exchange)` key is already stored
leaves two rows under that key — exactly the duplicate an at-least-once
retry of the same backfill produces. -/
theorem c1_delete_before_insert_counterexample :
    supplementWrite [⟨1, "600000", "sh"⟩] [⟨1, "600000", "sh"⟩] =
      [⟨1, "600000", "sh"⟩, ⟨1, "600000", "sh"⟩] ∧
    countKey (supplementWrite [⟨1, "600000", "sh"⟩] [⟨1, "600000", "sh"⟩])
      1 "600000" "sh" = 2 := by
  exact ⟨rfl, rfl⟩

/-- C1 amended: the delete-before-insert discipline holds on the after-close
daily job path (`save_after_close_stock_blocktrade_data`): when the table
exists and the fetched frame is a non-empty set of rows for the affected
date, the rows stored under that date afterwards are exactly the fetched
rows, rows of other dates are untouched, the write is idempotent under
retry, and per-key counts for the date equal those of the fetched frame.
The history supplement paths (`_supplement_data_baostock`,
`_supplement_data_tushare`) insert without deleting, so there the claimed
uniqueness can be violated (see the counterexample). -/
theorem c1_delete_before_insert_amended (d : Nat) (data store : List BtRow)
    (hne : data ≠ []) (hd : ∀ r ∈ data, r.date = d) :
    (saveBlocktrade true d data store).filter (fun r => decide (r.date = d)) = data ∧
    (saveBlocktrade true d data store).filter (fun r => decide (r.date ≠ d)) =
      store.filter (fun r => decide (r.date ≠ d)) ∧
    saveBlocktrade true d data (saveBlocktrade true d data store) =
      saveBlocktrade true d data store ∧
    (∀ c, countBtKey (saveBlocktrade true d data store) d c = countBtKey data d c) := by
  obtain ⟨a, l, rfl⟩ : ∃ a l, data = a :: l := by
    cases data with
    | nil => exact absurd rfl hne
    | cons a l => exact ⟨a, l, rfl⟩
  have hsave : ∀ st : List BtRow, saveBlocktrade true d (a :: l) st =
      st.filter (fun r => decide (r.date ≠ d)) ++ (a :: l) := fun st => rfl
  have hfilter_keep : ∀ st : List BtRow,
      (st.filter (fun r => decide (r.date ≠ d))).filter (fun r => decide (r.date ≠ d)) =
        st.filter (fun r => decide (r.date ≠ d)) := by
    intro st
    apply List.filter_eq_self.mpr
    intro r hr
    exact (List.mem_filter.mp hr).2
  have hdata_ne : (a :: l).filter (fun r => decide (r.date ≠ d)) = [] :=
    List.filter_eq_nil_iff.mpr (fun r hr => by simp [hd r hr])
  have hdata_eq : (a :: l).filter (fun r => decide (r.date = d)) = a :: l :=
    List.filter_eq_self.mpr (fun r hr => by simp [hd r hr])
  have hstore_none : (store.filter (fun r => decide (r.date ≠ d))).filter
      (fun r => decide (r.date = d)) = [] :=
    List.filter_eq_nil_iff.mpr (fun r hr => by
      have hmem := (List.mem_filter.mp hr).2
      simp at hmem ⊢
      exact hmem)
  refine ⟨?_, ?_, ?_, ?_⟩
  · rw [hsave, List.filter_append, hstore_none, hdata_eq, List.nil_append]
  · rw [hsave, List.filter_append, hfilter_keep, hdata_ne, List.append_nil]
  · rw [hsave store, hsave (store.filter (fun r => decide (r.date ≠ d)) ++ (a :: l)),
      List.filter_append, hfilter_keep, hdata_ne, List.append_nil]
  · intro c
    unfold countBtKey
    rw [hsave, List.filter_append]
    have hnone : (store.filter (fun r => decide (r.date ≠ d))).filter
        (fun r => decide (r.date = d ∧ r.code = c)) = [] :=
      List.filter_eq_nil_iff.mpr (fun r hr => by
        have hmem := (List.mem_filter.mp hr).2
        simp at hmem ⊢
        intro hrd
        exact absurd hrd hmem)
    rw [hnone, List.nil_append]

theorem c1_delete_before_insert_amended_witness :
    saveBlocktrade true 7 [⟨7, "000001"⟩]
        (saveBlocktrade true 7 [⟨7, "000001"⟩] [⟨7, "000002"⟩, ⟨6, "000001"⟩]) =
      saveBlocktrade true 7 [⟨7, "000001"⟩] [⟨7, "000002"⟩, ⟨6, "000001"⟩] ∧
    countBtKey (saveBlocktrade true 7 [⟨7, "000001"⟩] [⟨7, "000002"⟩, ⟨6, "000001"⟩])
      7 "000001" = countBtKey [⟨7, "000001"⟩] 7 "000001" :=
  ⟨(c1_delete_before_insert_amended 7 [⟨7, "000001"⟩] [⟨7, "000002"⟩, ⟨6, "000001"⟩]
      (by decide) (by decide)).2.2.1,
    (c1_delete_before_insert_amended 7 [⟨7, "000001"⟩] [⟨7, "000002"⟩, ⟨6, "000001"⟩]
      (by decide) (by decide)).2.2.2 "000001"⟩

/-- Number of chunks the loop `range(0, total_rows, batch_size)` visits:
the ceiling of the row count over the chunk size. -/
theorem chunksOf_length {α : Type} (b : Nat) (l : List α) :
    (chunksOf b l).length = (l.length + b) / (b + 1) := by
  have H : ∀ (n : Nat) (l : List α), l.length ≤ n →
      (chunksOf b l).length = (l.length + b) / (b + 1) := by
    intro n
    induction n with
    | zero =>
      intro l hl
      obtain rfl : l = [] := List.eq_nil_of_length_eq_zero (Nat.le_zero.mp hl)
      simp only [chunksOf, List.length_nil, Nat.zero_add]
      exact (Nat.div_eq_of_lt (by omega)).symm
    | succ n ih =>
      intro l hl
      cases l with
      | nil =>
        simp only [chunksOf, List.length_nil, Nat.zero_add]
        exact (Nat.div_eq_of_lt (by omega)).symm
      | cons x xs =>
        have hxs : (xs.drop b).length ≤ n := by
          simp only [List.length_drop]
          have := hl
          simp only [List.length_cons] at this
          omega
        simp only [chunksOf, List.length_cons]
        rw [ih (xs.drop b) hxs, List.length_drop]
        rcases le_or_lt b xs.length with hb | hb
        · rw [Nat.sub_add_cancel hb,
            show xs.length + 1 + b = xs.length + (b + 1) by omega,
            Nat.add_div_right _ (Nat.succ_pos b)]
        · have h1 : xs.length - b = 0 := by omega
          rw [h1, Nat.zero_add, Nat.div_eq_of_lt (by omega)]
          symm
          exact Nat.div_eq_of_lt_le (by omega) (by omega)
  exact H l.length l (le_refl _)

/-- Every chunk the loop produces holds at most the chunk size of rows. -/
theorem mem_chunksOf_length_le {α : Type} (b : Nat) (l : List α) :
    ∀ c ∈ chunksOf b l, c.length ≤ b + 1 := by
  have H : ∀ (n : Nat) (l : List α), l.length ≤ n →
      ∀ c ∈ chunksOf b l, c.length ≤ b + 1 := by
    intro n
    induction n with
    | zero =>
      intro l hl c hc
      obtain rfl : l = [] := List.eq_nil_of_length_eq_zero (Nat.le_zero.mp hl)
      simp [chunksOf] at hc
    | succ n ih =>
      intro l hl c hc
      cases l with
      | nil => simp [chunksOf] at hc
      | cons x xs =>
        simp only [chunksOf, List.mem_cons] at hc
        rcases hc with rfl | hc
        · rw [List.length_take]
          omega
        · have hxs : (xs.drop b).length ≤ n := by
            simp only [List.length_drop]
            simp only [List.length_cons] at hl
            omega
          exact ih (xs.drop b) hxs c hc
  exact H l.length l (le_refl _)

/-- When every insert call succeeds the loop performs one call per chunk. -/
theorem runChunks_all {α : Type} (oracle : Nat → Bool)
    (h : ∀ i, oracle i = true) :
    ∀ (i : Nat) (cs : List (List α)), runChunks oracle i cs = (true, cs.length) := by
  intro i cs
  induction cs generalizing i with
  | nil => rfl
  | cons c rest ih =>
    simp [runChunks, h i, ih (i + 1)]

/-- When call `k` (0-based) is the first to fail, the loop stops right
there: `k + 1` calls were made and the overall result is failure. -/
theorem runChunks_abort {α : Type} (oracle : Nat → Bool) :
    ∀ (cs : List (List α)) (i k : Nat),
      oracle (i + k) = false → (∀ j, j < k → oracle (i + j) = true) →
      k < cs.length → runChunks oracle i cs = (false, k + 1) := by
  intro cs
  induction cs with
  | nil =>
    intro i k _ _ hk
    simp at hk
  | cons c rest ih =>
    intro i k hf ht hk
    rcases Nat.eq_zero_or_pos k with rfl | hkpos
    · have h0 : oracle i = false := by simpa using hf
      simp [runChunks, h0]
    · have h0 : oracle i = true := by
        have := ht 0 hkpos
        simpa using this
      have hrec : runChunks oracle (i + 1) rest = (false, (k - 1) + 1) := by
        apply ih
        · rw [show i + 1 + (k - 1) = i + k by omega]
          exact hf
        · intro j hj
          rw [show i + 1 + j = i + (j + 1) by omega]
          exact ht (j + 1) (by omega)
        · simp only [List.length_cons] at hk
          omega
      simp only [runChunks, h0, if_pos, hrec]
      have hk1 : k - 1 + 1 + 1 = k + 1 := by omega
      simp [hk1]

/-- C8: the chunked insert splits the rows into chunks of at most the fixed
chunk size (10,000 at the code's default), an empty frame is a successful
no-op with zero insert calls, a run in which every call succeeds issues
exactly ceiling(rows/10,000) calls (3 calls for 25,000 rows), and the first
failing call aborts the remaining chunks, reporting failure after exactly
`k + 1` calls. -/
theorem c8_chunked_insert :
    (∀ (oracle : Nat → Bool) (b : Nat),
      batchInsertDataframe oracle b ([] : List Nat) = (true, 0)) ∧
    (∀ (b : Nat) (rows : List Nat), ∀ c ∈ chunksOf b rows, c.length ≤ b + 1) ∧
    (∀ (oracle : Nat → Bool) (rows : List Nat), (∀ i, oracle i = true) →
      batchInsertDataframe oracle 9999 rows = (true, (rows.length + 9999) / 10000)) ∧
    (∀ (oracle : Nat → Bool) (rows : List Nat) (k : Nat),
      oracle k = false → (∀ j, j < k → oracle j = true) →
      k < (rows.length + 9999) / 10000 →
      batchInsertDataframe oracle 9999 rows = (false, k + 1)) := by
  refine ⟨fun oracle b => rfl, fun b rows => mem_chunksOf_length_le b rows, ?_, ?_⟩
  · intro oracle rows hall
    cases rows with
    | nil =>
      show (true, 0) = (true, (0 + 9999) / 10000)
      norm_num
    | cons x xs =>
      show runChunks oracle 0 (chunksOf 9999 (x :: xs)) = _
      rw [runChunks_all oracle hall 0, chunksOf_length]
  · intro oracle rows k hf ht hk
    cases rows with
    | nil =>
      norm_num at hk
    | cons x xs =>
      show runChunks oracle 0 (chunksOf 9999 (x :: xs)) = (false, k + 1)
      apply runChunks_abort
      · simpa using hf
      · intro j hj
        simpa using ht j hj
      · rw [chunksOf_length]
        exact hk

theorem c8_chunked_insert_witness :
    batchInsertDataframe (fun _ => true) 9999 ([] : List Nat) = (true, 0) ∧
    ([1, 2] : List Nat).length ≤ 1 + 1 ∧
    batchInsertDataframe (fun _ => true) 9999 (List.replicate 25000 (0 : Nat)) =
      (true, 3) ∧
    batchInsertDataframe (fun i => decide (i ≠ 1)) 9999
      (List.replicate 25000 (0 : Nat)) = (false, 2) := by
  refine ⟨c8_chunked_insert.1 (fun _ => true) 9999, ?_, ?_, ?_⟩
  · exact c8_chunked_insert.2.1 1 [1, 2, 3] [1, 2] (by simp [chunksOf])
  · have h := c8_chunked_insert.2.2.1 (fun _ => true)
      (List.replicate 25000 (0 : Nat)) (fun i => rfl)
    rw [List.length_replicate] at h
    exact h
  · have h := c8_chunked_insert.2.2.2 (fun i => decide (i ≠ 1))
      (List.replicate 25000 (0 : Nat)) 1 (by decide)
      (fun j hj => by
        have hj0 : j = 0 := by omega
        subst hj0
        rfl)
      (by rw [List.length_replicate]; norm_num)
    exact h

end Stock
